import Mathlib

/-!
Verification of the model-assembly pipeline of the URDF-Visualizer web
application (file src/App.tsx and its helpers).  Text is modelled as
`List Char`; the regex-driven scanning, splicing and path rewriting of the
source are translated into structurally recursive Lean functions, and the
behavioural claims of the specification are settled against them.
-/

set_option maxHeartbeats 1000000

namespace URDFViz

/-- Document text, modelled as a list of characters. -/
abbrev Str := List Char

/-- Shorthand turning a Lean string literal into the character-list model. -/
def toL (s : String) : Str := s.toList

/-- The virtual file index: an insertion-ordered association list from
relative path to file text (the `Map<string, File>` of the source). -/
abbrev FilesMap := List (Str × Str)

/-- `dropLit lit s` returns the remainder of `s` after the literal prefix
`lit`, or `none` when `lit` is not a prefix of `s`. -/
def dropLit : Str → Str → Option Str
  | [], s => some s
  | _ :: _, [] => none
  | l :: ls, c :: cs => if c = l then dropLit ls cs else none

/-- Whether a literal is a prefix of a string. -/
def startsWithS (s pre : Str) : Bool := (dropLit pre s).isSome

/-- Whether a literal is a suffix of a string. -/
def endsWithS (s suf : Str) : Bool := startsWithS s.reverse suf.reverse

/-- The character class `\s` of the source regexes (the whitespace
characters relevant to the documents handled by the program). -/
def isWs (c : Char) : Bool :=
  c = ' ' || c = '\t' || c = '\n' || c = '\r' || c = '\x0b' || c = '\x0c'

/-- The character class `[\w_]` (equivalently `\w`) of the source regexes. -/
def isWordC (c : Char) : Bool :=
  ('a' ≤ c && c ≤ 'z') || ('A' ≤ c && c ≤ 'Z') || ('0' ≤ c && c ≤ '9') || c = '_'

/-- The character class `[a-z_]` of the `$(...)` regex in
`fetchAndFlattenXacro`. -/
def isLowerU (c : Char) : Bool := ('a' ≤ c && c ≤ 'z') || c = '_'

/-- The character class `['"]`. -/
def isQuote (c : Char) : Bool := c = '\'' || c = '"'

/-- One located inclusion directive: start offset, length of the full
matched text, and the captured raw path expression (the source collects
`{ full, path, index }`; `len` is `full.length`). -/
structure XMatch where
  idx : Nat
  len : Nat
  path : Str
deriving DecidableEq, Repr

/-- The `\s+` piece of the directive regex: at least one whitespace
character, consumed greedily. -/
def afterWs1 : Str → Option Str
  | [] => none
  | c :: cs => if isWs c then some ((c :: cs).dropWhile isWs) else none

/-- The literal `=` piece. -/
def afterEq : Str → Option Str
  | [] => none
  | c :: cs => if c = '=' then some cs else none

/-- The `['"]([^'"]+)['"]` piece: an opening quote, a non-empty greedy run
of non-quote characters (the captured path), and a closing quote. -/
def quoteSplit : Str → Option (Str × Str)
  | [] => none
  | q :: r7 =>
    if isQuote q then
      match r7 with
      | [] => none
      | c2 :: _ =>
        if isQuote c2 then none
        else
          match r7.dropWhile (fun c => !(isQuote c)) with
          | _ :: r8 => some (r7.takeWhile (fun c => !(isQuote c)), r8)
          | [] => none
    else none

/-- The `\s*\/?>` piece closing the directive. -/
def closeTag (s : Str) : Option Str :=
  match s.dropWhile isWs with
  | '/' :: '>' :: rest => some rest
  | '>' :: rest => some rest
  | _ => none

/-- Attempt to match the inclusion-directive regex of `App.tsx` at the head
of `s`.  With `spaced = false` this is the `flattenXacro` regex
`<xacro:include\s+filename=['"]([^'"]+)['"]\s*\/?>`; with `spaced = true`
it is the `fetchAndFlattenXacro` variant that also allows `\s*` around the
`=`.  On success it returns the captured path and the remainder of the
text after the match. -/
def tryMatch (spaced : Bool) (s : Str) : Option (Str × Str) :=
  (dropLit (toL "<xacro:include") s).bind fun r1 =>
  (afterWs1 r1).bind fun r2 =>
  (dropLit (toL "filename") r2).bind fun r3 =>
  (afterEq (if spaced then r3.dropWhile isWs else r3)).bind fun r5 =>
  (quoteSplit (if spaced then r5.dropWhile isWs else r5)).bind fun pr =>
  (closeTag pr.2).map fun rest => (pr.1, rest)

/-- The scan loop `while ((match = includeRegex.exec(content)) !== null)`:
collect every directive in left-to-right order, advancing one character
when no match starts at the current position and past the whole match
otherwise.  `fuel` is instantiated with the text length by `findMatches`;
offsets are absolute into the original text. -/
def findMatchesAux (spaced : Bool) : Nat → Str → Nat → List XMatch
  | 0, _, _ => []
  | _ + 1, [], _ => []
  | fuel + 1, c :: cs, pos =>
    match tryMatch spaced (c :: cs) with
    | some (p, rest) =>
      let len := (c :: cs).length - rest.length
      ⟨pos, len, p⟩ :: findMatchesAux spaced fuel rest (pos + len)
    | none => findMatchesAux spaced fuel cs (pos + 1)

/-- All inclusion-directive matches of a document, in document order. -/
def findMatches (spaced : Bool) (content : Str) : List XMatch :=
  findMatchesAux spaced content.length content 0

/-- Attempt to match the package-macro token at the head of `s`.  With
`fetchStyle = true` this is `\$\([a-z_]+\s+([\w_]+)\)` (any lower-case
keyword, used in `fetchAndFlattenXacro`); with `fetchStyle = false` it is
`\$\(find\s+([\w_]+)\)` (used in `flattenXacro`).  Returns the captured
name and the remainder after the closing parenthesis. -/
def tryFindTok (fetchStyle : Bool) (s : Str) : Option (Str × Str) :=
  match dropLit (if fetchStyle then toL "$(" else toL "$(find") s with
  | none => none
  | some r1 =>
    let r2 := if fetchStyle then r1.dropWhile isLowerU else r1
    if fetchStyle && (r1.takeWhile isLowerU).isEmpty then none
    else
      match r2 with
      | c :: _ =>
        if isWs c then
          match (r2.dropWhile isWs) with
          | d :: _ =>
            if isWordC d then
              match (r2.dropWhile isWs).dropWhile isWordC with
              | ')' :: rest => some ((r2.dropWhile isWs).takeWhile isWordC, rest)
              | _ => none
            else none
          | [] => none
        else none
      | [] => none

/-- The global package-macro replacement applied to a raw include path.
`fetchStyle = true` models line 390 (`'package://$1'`), `fetchStyle =
false` models line 447 (`'$1'`, the bare package name).  `fuel` is
instantiated with the text length. -/
def replaceTokensAux (fetchStyle : Bool) : Nat → Str → Str
  | 0, s => s
  | _ + 1, [] => []
  | fuel + 1, c :: cs =>
    match tryFindTok fetchStyle (c :: cs) with
    | some (name, rest) =>
      (if fetchStyle then toL "package://" ++ name else name) ++
        replaceTokensAux fetchStyle fuel rest
    | none => c :: replaceTokensAux fetchStyle fuel cs

/-- `path.replace(/\$\(...\s+([\w_]+)\)/g, ...)` of the source. -/
def replaceTokens (fetchStyle : Bool) (s : Str) : Str :=
  replaceTokensAux fetchStyle s.length s

/-- Attempt to match `<\?xml.*?\?>` at the head of the text: after the
literal `<?xml`, the lazy `.*?` runs to the nearest `?>` and the dot does
not cross a line break.  Returns the remainder after the `?>`. -/
def xmlDeclTail : Str → Option Str
  | '?' :: '>' :: rest => some rest
  | c :: cs => if c = '\n' || c = '\r' then none else xmlDeclTail cs
  | [] => none

/-- Head match of the full XML-declaration pattern. -/
def tryXmlDecl (s : Str) : Option Str :=
  match dropLit (toL "<?xml") s with
  | none => none
  | some r => xmlDeclTail r

/-- `text.replace(/<\?xml.*?\?>/g, '')`: remove every occurrence, scanning
left to right and continuing after each removed match. -/
def removeXmlDeclsAux : Nat → Str → Str
  | 0, s => s
  | _ + 1, [] => []
  | fuel + 1, c :: cs =>
    match tryXmlDecl (c :: cs) with
    | some rest => removeXmlDeclsAux fuel rest
    | none => c :: removeXmlDeclsAux fuel cs

def removeXmlDecls (s : Str) : Str := removeXmlDeclsAux s.length s

/-- Head match of `<robot\b[^>]*>`: the literal `<robot`, a word boundary,
then any characters other than `>` up to a closing `>`.  Returns the
remainder after the `>`. -/
def tryRobotOpen (s : Str) : Option Str :=
  match dropLit (toL "<robot") s with
  | none => none
  | some r =>
    match r with
    | c :: _ =>
      if isWordC c then none
      else
        match r.dropWhile (fun c => !(c = '>')) with
        | _ :: rest => some rest
        | [] => none
    | [] => none

/-- `text.replace(/<robot\b[^>]*>/, '')`: remove only the first match. -/
def removeRobotOpen : Str → Str
  | [] => []
  | c :: cs =>
    match tryRobotOpen (c :: cs) with
    | some rest => rest
    | none => c :: removeRobotOpen cs

/-- `text.replace(/<\/robot>\s*$/, '')` of `flattenXacro`: if the text ends
with `</robot>` followed only by whitespace, remove that suffix. -/
def removeRobotCloseEnd (s : Str) : Str :=
  let r := s.reverse.dropWhile isWs
  if startsWithS r (toL "</robot>").reverse then (r.drop 8).reverse else s

/-- `text.replace(/<\/robot>[\s\S]*$/, '')` of `fetchAndFlattenXacro`:
remove everything from the first `</robot>` on. -/
def removeRobotCloseRest : Str → Str
  | [] => []
  | c :: cs =>
    if startsWithS (c :: cs) (toL "</robot>") then []
    else c :: removeRobotCloseRest cs

/-- The cleaning applied by `flattenXacro` (lines 459-464) to an included
file before recursing on it. -/
def cleanLocal (s : Str) : Str :=
  removeRobotCloseEnd (removeRobotOpen (removeXmlDecls s))

/-- The cleaning applied by `fetchAndFlattenXacro` (lines 407-411) to an
already-flattened included document before splicing it. -/
def cleanFetch (s : Str) : Str :=
  removeRobotCloseRest (removeRobotOpen (removeXmlDecls s))

/-- In-place replacement
`newContent.substring(0, index) + repl + newContent.substring(index + full.length)`. -/
def spliceAt (txt repl : Str) (i l : Nat) : Str :=
  txt.take i ++ repl ++ txt.drop (i + l)

/-- Modelled from the spec: `findFileInMap` lives in `src/utils/fileUtils.ts`,
which is not among the provided sources; §4.1 of the spec defines the
VirtualFileIndex lookup as `lookup(path) -> ContentSource | NotFound`,
exact match only on the path key. -/
def findFileInMap (map : FilesMap) (key : Str) : Option Str :=
  match map with
  | [] => none
  | (k, v) :: rest => if k = key then some v else findFileInMap rest key

/-- The `$(find pkg)` rewriting of `flattenXacro` line 447: the token is
replaced by the bare package name. -/
def resolveFindLocal (p : Str) : Str := replaceTokens false p

/-- The reverse-order include-processing loop of `flattenXacro` (lines
442-474).  `recur` is the flattening of the next recursion depth; the
match list is supplied already reversed (`for i = matches.length - 1 .. 0`).
A directive whose target is not in the map is left in place. -/
def goLocal (recur : Str → FilesMap → Option Str) (map : FilesMap) :
    List XMatch → Str → Option Str
  | [], txt => some txt
  | m :: rest, txt =>
    match findFileInMap map (resolveFindLocal m.path) with
    | none => goLocal recur map rest txt
    | some fileText =>
      match recur (cleanLocal fileText) map with
      | none => none
      | some flat => goLocal recur map rest (spliceAt txt flat m.idx m.len)

/-- `flattenXacro` (App.tsx lines 423-477), with an explicit recursion-depth
fuel: `none` means the recursion has not completed within the given depth.
The source function carries no base path and no set of in-progress
documents; its only state is the text and the files map. -/
def flattenXacro : Nat → Str → FilesMap → Option Str
  | 0, _, _ => none
  | n + 1, content, map =>
    goLocal (flattenXacro n) map ((findMatches false content).reverse) content

/-- `resolveUrlPath` (App.tsx lines 354-365): JS `split('/')` on the base,
drop the file name, then push/pop the segments of the relative part. -/
def splitSlash : Str → List Str
  | [] => [[]]
  | '/' :: cs => [] :: splitSlash cs
  | c :: cs =>
    match splitSlash cs with
    | [] => [[c]]
    | g :: gs => (c :: g) :: gs

def joinSlash : List Str → Str
  | [] => []
  | [g] => g
  | g :: gs => g ++ '/' :: joinSlash gs

def segStep (stack : List Str) (part : Str) : List Str :=
  if part = toL "." then stack
  else if part = toL ".." then stack.dropLast
  else stack ++ [part]

def resolveUrlPath (base rel : Str) : Str :=
  if startsWithS rel (toL "http") || startsWithS rel (toL "/") then rel
  else joinSlash ((splitSlash rel).foldl segStep (splitSlash base).dropLast)

/-- `targetUrl.replace(/([^:])\/\//g, '$1/')` (line 403): collapse a double
slash after any non-colon character, continuing the scan after each
replacement. -/
def fixDoubleSlash : Str → Str
  | [] => []
  | c :: '/' :: '/' :: rest =>
    if c = ':' then c :: fixDoubleSlash ('/' :: '/' :: rest)
    else c :: '/' :: fixDoubleSlash rest
  | c :: cs => c :: fixDoubleSlash cs

/-- Target-URL computation for one include directive of
`fetchAndFlattenXacro` (lines 389-403): `$(word pkg)` becomes
`package://pkg`, a leading slash is dropped, a `package://` path is based
at `baseUrl`, anything else is resolved against the current document URL,
and double slashes are collapsed. -/
def computeTargetUrl (baseUrl url p : Str) : Str :=
  let clean := replaceTokens true p
  let clean := match clean with | '/' :: r => r | other => other
  let t :=
    if startsWithS clean (toL "package://") then
      baseUrl ++ ((dropLit (toL "package://") clean).getD clean)
    else resolveUrlPath url clean
  fixDoubleSlash t

/-- The reverse-order include loop of `fetchAndFlattenXacro` (lines
385-419).  A failure of the recursive fetch-and-flatten is caught
(`try/catch`) and the directive is left in place; cleaning happens after
the recursive flattening. -/
def goFetch (recur : Str → Option (Except Str Str)) (baseUrl url : Str) :
    List XMatch → Str → Option (Except Str Str)
  | [], txt => some (.ok txt)
  | m :: rest, txt =>
    match recur (computeTargetUrl baseUrl url m.path) with
    | none => none
    | some (.error _) => goFetch recur baseUrl url rest txt
    | some (.ok inc) =>
      goFetch recur baseUrl url rest (spliceAt txt (cleanFetch inc) m.idx m.len)

/-- `fetchAndFlattenXacro` (App.tsx lines 367-421), against an abstract
fetch oracle.  A root document that cannot be fetched throws
(`Except.error`); `none` is exhausted recursion depth. -/
def fetchAndFlattenXacro (fetchO : Str → Option Str) (baseUrl : Str) :
    Nat → Str → Option (Except Str Str)
  | 0, _ => none
  | n + 1, url =>
    match fetchO url with
    | none => some (.error (toL "Failed to fetch " ++ url))
    | some content =>
      goFetch (fetchAndFlattenXacro fetchO baseUrl n) baseUrl url
        ((findMatches true content).reverse) content

/-- JS `toLowerCase()` on the characters of a name. -/
def toLowerS (s : Str) : Str := s.map Char.toLower

/-- JS `includes(pat)` substring test. -/
def containsSub : Str → Str → Bool
  | [], pat => (dropLit pat ([] : Str)).isSome
  | c :: cs, pat => (dropLit pat (c :: cs)).isSome || containsSub cs pat

/-- The base file name of a path (JS `File.name` for an entry whose
`webkitRelativePath` is the given path). -/
def fileNameOf (p : Str) : Str := ((splitSlash p).getLast?).getD []

/-- Candidate collection of `handleFolderChange` (lines 547-552) and
`handleDrop` (lines 638-644): a file joins `urdfFiles` exactly when its
name ends with `.urdf` or `.xacro`, compared case-sensitively. -/
def candidateFiles (paths : List Str) : List Str :=
  paths.filter fun p =>
    endsWithS (fileNameOf p) (toL ".urdf") || endsWithS (fileNameOf p) (toL ".xacro")

/-- Entry-point selection of `handleFolderChange` lines 560-562 (and
`handleDrop` lines 655-667): first name containing `main`
(case-insensitive), else first containing `robot`, else the first
candidate. -/
def selectEntryFile (cands : List Str) : Option Str :=
  match cands.find? (fun f => containsSub (toLowerS (fileNameOf f)) (toL "main")) with
  | some e => some e
  | none =>
    match cands.find? (fun f => containsSub (toLowerS (fileNameOf f)) (toL "robot")) with
    | some e => some e
    | none => cands.head?

/-- The folder-load front end of `handleFolderChange`: collect candidates,
fail with the user-visible error when none exists, otherwise pick the
entry file. -/
def handleFolderLoad (paths : List Str) : Except Str Str :=
  match selectEntryFile (candidateFiles paths) with
  | some e => .ok e
  | none => .error (toL "No .urdf or .xacro file found in the selected folder.")

/-- Result of the `setURLModifier` callback: either an object URL minted
for a local file (whose text is carried), or a plain URL string. -/
inductive ResolvedUrl where
  | blob (file : Str)
  | plain (u : Str)
deriving DecidableEq, Repr

/-- `pathParts.slice(0, -1).join('/')` for the current model file. -/
def modelDirOf (cfp : Str) : Str := joinSlash (splitSlash cfp).dropLast

/-- `pathParts.length > 1 ? pathParts[0] : ''`. -/
def modelPackageRootOf (cfp : Str) : Str :=
  if 1 < (splitSlash cfp).length then ((splitSlash cfp).head?).getD [] else []

/-- The URL modifier installed on the loading manager (App.tsx lines
200-230): local files first, then `package://`, then the urdf-sibling
heuristic, then plain relative resolution against the model directory. -/
def urlModifier (localFiles : FilesMap) (baseUrl cfp url : Str) : ResolvedUrl :=
  match (if 0 < localFiles.length then findFileInMap localFiles url else none) with
  | some f => .blob f
  | none =>
    if startsWithS url (toL "package://") then
      .plain (baseUrl ++ ((dropLit (toL "package://") url).getD url))
    else if !(startsWithS url (toL "/")) && !(startsWithS url (toL "http"))
        && !(startsWithS url (toL "blob:")) then
      if endsWithS (modelDirOf cfp) (toL "/urdf") && !(startsWithS url (toL "..")) then
        .plain (baseUrl ++ modelPackageRootOf cfp ++ toL "/" ++ url)
      else
        .plain (baseUrl ++
          (if (modelDirOf cfp).isEmpty then url else modelDirOf cfp ++ toL "/" ++ url))
    else .plain url

/-- The component state touched by a sample load (`handleSampleChange`,
lines 575-611). -/
structure AppState where
  urdfContent : Option Str
  currentFilePath : Str
  loading : Bool
deriving DecidableEq, Repr

/-- The synchronous part of `handleSampleChange` for a `.urdf` sample:
`setLoading(true); setCurrentFilePath(filename)` before the fetch starts. -/
def sampleRequest (filename : Str) (s : AppState) : AppState :=
  { s with loading := true, currentFilePath := filename }

/-- The continuation run when the fetch of a sample completes:
`setUrdfContent(content)`, committed unconditionally — the source contains
no generation tag and no check that this load is still the latest one. -/
def sampleCommit (content : Str) (s : AppState) : AppState :=
  { s with urdfContent := some content }

/-! ### Reference definitions taken from the words of the specification.
These are deliberately independent of the code-derived functions above;
the refinement and correction theorems compare the two. -/

/-- Follows the words of the spec (§4.4 step 4 / claim C3): strip exactly
one leading XML declaration occurrence. -/
def stripLeadingXmlDecl (s : Str) : Str :=
  match tryXmlDecl s with
  | some rest => rest
  | none => s

/-- Remove the first occurrence of a literal pattern. -/
def removeFirstOcc (pat : Str) : Str → Str
  | [] => []
  | c :: cs =>
    match dropLit pat (c :: cs) with
    | some rest => rest
    | none => c :: removeFirstOcc pat cs

/-- Follows the words of the spec: remove the outermost (hence last)
`</robot>` closing tag occurrence. -/
def removeLastRobotClose (s : Str) : Str :=
  (removeFirstOcc (toL "</robot>").reverse s.reverse).reverse

/-- Follows the words of the spec (claim C3): strip exactly one leading
XML declaration occurrence and exactly the outermost root-element
open/close tag pair, leaving only the inner fragment. -/
def stripSpec (s : Str) : Str :=
  removeLastRobotClose (removeRobotOpen (stripLeadingXmlDecl s))

/-- Follows the words of the spec (§4.3 / claim C4): entry selection with
the four priority rules, including rule 3 (a root-level candidate, whose
path has no directory separator). -/
def specEntrySelect (cands : List Str) : Option Str :=
  match cands.find? (fun f => containsSub (toLowerS (fileNameOf f)) (toL "main")) with
  | some e => some e
  | none =>
    match cands.find? (fun f => containsSub (toLowerS (fileNameOf f)) (toL "robot")) with
    | some e => some e
    | none =>
      match cands.find? (fun p => !(containsSub p (toL "/"))) with
      | some e => some e
      | none => cands.head?

/-- Follows the words of the spec (§4.2 / claim C5-C6): a `$(find <name>)`
token embedded anywhere in the path is replaced with `package://<name>`. -/
def claimSubstPkgAux : Nat → Str → Str
  | 0, s => s
  | _ + 1, [] => []
  | fuel + 1, c :: cs =>
    match tryFindTok false (c :: cs) with
    | some (name, rest) => toL "package://" ++ name ++ claimSubstPkgAux fuel rest
    | none => c :: claimSubstPkgAux fuel cs

def claimSubstitutePackageMacros (s : Str) : Str := claimSubstPkgAux s.length s

/-- Follows the words of the spec (§4.2 / claim C5): join the directory of
the base path with the reference and collapse `.` and `..` segments. -/
def claimCollapse : List Str → List Str → List Str
  | acc, [] => acc
  | acc, seg :: rest =>
    if seg = toL "." then claimCollapse acc rest
    else if seg = toL ".." then claimCollapse acc.dropLast rest
    else claimCollapse (acc ++ [seg]) rest

def claimResolveRelative (base ref : Str) : Str :=
  if startsWithS ref (toL "/") || startsWithS ref (toL "http") then ref
  else joinSlash (claimCollapse (splitSlash base).dropLast (splitSlash ref))

/-- Follows the words of claim C5: package-macro substitution first, then
relative resolution against the current document path. -/
def claimNormalizeInclude (docPath raw : Str) : Str :=
  claimResolveRelative docPath (claimSubstitutePackageMacros raw)

/-- Follows the words of the spec (§4.4 numeric/ordering semantics, §8 /
claim C1): substitute all directives simultaneously — the text is cut into
the segments around the matched spans and the replacements are laid into
the gaps, with no notion of processing order. -/
def simultaneousSubstitute (content : Str) : Nat → List (XMatch × Str) → Str
  | p, [] => content.drop p
  | p, (m, r) :: rest =>
    (content.drop p).take (m.idx - p) ++ r ++
      simultaneousSubstitute content (m.idx + m.len) rest

def simultaneousSubstitution (content : Str) (pairs : List (XMatch × Str)) : Str :=
  simultaneousSubstitute content 0 pairs

/-! ### Proof machinery for the simultaneous-substitution theorem. -/

/-- Spans are in document order, pairwise disjoint, start at or after `lo`
and end at or before `hi`. -/
def SpansOk : Nat → Nat → List XMatch → Prop
  | lo, hi, [] => lo ≤ hi
  | lo, hi, m :: ms => lo ≤ m.idx ∧ SpansOk (m.idx + m.len) hi ms

/-- Simultaneous substitution restricted to the window `[p, b)` of the
content. -/
def simulSeg (content : Str) : Nat → Nat → List (XMatch × Str) → Str
  | p, b, [] => (content.drop p).take (b - p)
  | p, b, (m, r) :: rest =>
    (content.drop p).take (m.idx - p) ++ r ++ simulSeg content (m.idx + m.len) b rest

/-- The recursively flattened replacement text of one directive at
recursion budget `n`: look the resolved path up, clean the file text, and
flatten it. -/
def replacementOf (n : Nat) (map : FilesMap) (m : XMatch) : Option Str :=
  (findFileInMap map (resolveFindLocal m.path)).bind fun ft =>
    flattenXacro n (cleanLocal ft) map

/-! ### Concrete documents used by witnesses and counterexamples. -/

/-- A document whose single directive includes `b.xacro`. -/
def cycA : Str := toL "<xacro:include filename=\"b.xacro\"/>"

/-- A document whose single directive includes `a.xacro`. -/
def cycB : Str := toL "<xacro:include filename=\"a.xacro\"/>"

/-- A files map in which `a.xacro` and `b.xacro` include each other. -/
def cycMap : FilesMap := [(toL "a.xacro", cycA), (toL "b.xacro", cycB)]

/-- A second document map: one include target missing, one present. -/
def c8content : Str :=
  toL "<xacro:include filename=\"missing.xacro\"/><xacro:include filename=\"ok.xacro\"/>"

def c8map : FilesMap := [(toL "ok.xacro", toL "<k/>")]

/-- An included file carrying a second, non-leading XML declaration. -/
def c3inc : Str := toL "<?xml version=\"1.0\"?><robot name=\"r\"><a/><?xml x?></robot>"

def c3content : Str := toL "<xacro:include filename=\"f.xacro\"/>"

def c3map : FilesMap := [(toL "f.xacro", c3inc)]

/-- A document whose include path is relative to the document directory. -/
def c5content : Str := toL "<xacro:include filename=\"sub/common.xacro\"/>"

def c5map : FilesMap := [(toL "pkg/sub/common.xacro", toL "<x/>")]

/-- A three-level remote document tree: the mid-level document lives in a
subdirectory, and its own include only resolves relative to that
subdirectory. -/
def c5fetchO : Str → Option Str := fun u =>
  if u = toL "a/root.xacro" then
    some (toL "<a><xacro:include filename=\"sub/mid.xacro\"/></a>")
  else if u = toL "a/sub/mid.xacro" then
    some (toL "<m><xacro:include filename=\"deep.xacro\"/></m>")
  else if u = toL "a/sub/deep.xacro" then some (toL "<d/>")
  else none

/-- Two sibling includes whose replacements differ in length from the
directives. -/
def c1content : Str :=
  toL "<a/><xacro:include filename=\"p.xacro\"/><b/><xacro:include filename=\"q.xacro\"/><c/>"

def c1map : FilesMap :=
  [(toL "p.xacro", toL "<robot><pp/></robot>"), (toL "q.xacro", toL "<qqqq/>")]

/-! ## Theorems -/

theorem dropWhile_length_le (p : Char → Bool) (l : Str) :
    (l.dropWhile p).length ≤ l.length := by
  induction l with
  | nil => simp [List.dropWhile]
  | cons c cs ih =>
    rw [List.dropWhile_cons]
    split
    · exact Nat.le_trans ih (Nat.le_succ _)
    · exact Nat.le_refl _

theorem dropLit_length :
    ∀ (lit s r : Str), dropLit lit s = some r → r.length + lit.length = s.length := by
  intro lit
  induction lit with
  | nil =>
    intro s r h
    simp [dropLit] at h
    simp [h]
  | cons l ls ih =>
    intro s r h
    cases s with
    | nil => simp [dropLit] at h
    | cons c cs =>
      by_cases hc : c = l
      · simp [dropLit, hc] at h
        have := ih cs r h
        simp only [List.length_cons]
        omega
      · simp [dropLit, hc] at h

/-- C2: on the mutually including pair `a.xacro` / `b.xacro`, the local
flattener never completes: for every recursion depth the computation is
still running (the source maintains no set of in-progress documents and
records no `IncludeCycle` diagnostic, so the recursion is unbounded). -/
theorem flattenXacro_cycle_diverges :
    ∀ n, flattenXacro n cycA cycMap = none ∧ flattenXacro n cycB cycMap = none := by
  intro n
  induction n with
  | zero => exact ⟨rfl, rfl⟩
  | succ n ih =>
    have hA : (findMatches false cycA).reverse = [⟨0, 35, toL "b.xacro"⟩] := by decide
    have hB : (findMatches false cycB).reverse = [⟨0, 35, toL "a.xacro"⟩] := by decide
    have hlA : findFileInMap cycMap (resolveFindLocal (toL "b.xacro")) = some cycB := by decide
    have hlB : findFileInMap cycMap (resolveFindLocal (toL "a.xacro")) = some cycA := by decide
    have hcA : cleanLocal cycA = cycA := by decide
    have hcB : cleanLocal cycB = cycB := by decide
    constructor
    · show flattenXacro (n + 1) cycA cycMap = none
      rw [flattenXacro, hA, goLocal]
      simp only [hlA, hcB, ih.2]
    · show flattenXacro (n + 1) cycB cycMap = none
      rw [flattenXacro, hB, goLocal]
      simp only [hlB, hcA, ih.1]

/-- C3 counterexample: on an included file whose inner fragment itself
contains an XML declaration, the flattener does not strip exactly one
leading declaration — it strips every occurrence (the replace is global),
so the spliced text differs from the one the claim describes. -/
theorem cleanLocal_not_one_leading_decl :
    flattenXacro 2 c3content c3map = some (toL "<a/>") ∧
    stripSpec c3inc = toL "<a/><?xml x?>" ∧
    (toL "<a/>" : Str) ≠ toL "<a/><?xml x?>" := by
  refine ⟨by decide, by decide, by decide⟩

/-- C3 amended: the cleaning pass removes every XML declaration occurrence
(leading or not), the first root-element open tag and the trailing close
tag, so for an included file with a single leading declaration exactly the
inner fragment is spliced; the remote variant also drops everything that
follows the close tag. -/
theorem cleanLocal_strips_amended :
    cleanLocal (toL "<?xml version=\"1.0\"?><robot name=\"r\"><link/></robot>") =
      toL "<link/>" ∧
    cleanLocal c3inc = toL "<a/>" ∧
    removeXmlDecls (toL "<a/><?xml mid?><b/>") = toL "<a/><b/>" ∧
    cleanFetch (toL "<robot><x/></robot><!-- c -->") = toL "<x/>" := by
  refine ⟨by decide, by decide, by decide, by decide⟩

/-- C4 counterexample: with candidates `["sub/deep.urdf", "top.urdf"]` and
no `main`/`robot` name, the code picks the first candidate in enumeration
order, not the root-level one required by rule 3 of the claim. -/
theorem selectEntry_no_root_rule :
    selectEntryFile [toL "sub/deep.urdf", toL "top.urdf"] = some (toL "sub/deep.urdf") ∧
    specEntrySelect [toL "sub/deep.urdf", toL "top.urdf"] = some (toL "top.urdf") ∧
    some (toL "sub/deep.urdf") ≠ some (toL "top.urdf") := by
  refine ⟨by decide, by decide, by decide⟩

/-- C4 amended: selection is (1) first name containing `main`
(case-insensitive), (2) else first name containing `robot`, (3) else the
first candidate in enumeration order — there is no root-level rule; the
cited example still returns `top.urdf` because it comes first. -/
theorem selectEntry_priority_amended :
    (∀ cs : List Str,
        (∀ c ∈ cs, containsSub (toLowerS (fileNameOf c)) (toL "main") = false ∧
          containsSub (toLowerS (fileNameOf c)) (toL "robot") = false) →
        selectEntryFile cs = cs.head?) ∧
    selectEntryFile [toL "top.urdf", toL "sub/deep.urdf"] = some (toL "top.urdf") := by
  constructor
  · intro cs h
    have h1 : cs.find? (fun f => containsSub (toLowerS (fileNameOf f)) (toL "main")) = none :=
      List.find?_eq_none.mpr fun x hx => by simp [(h x hx).1]
    have h2 : cs.find? (fun f => containsSub (toLowerS (fileNameOf f)) (toL "robot")) = none :=
      List.find?_eq_none.mpr fun x hx => by simp [(h x hx).2]
    rw [selectEntryFile, h1, h2]
  · decide

theorem selectEntry_priority_amended_witness :
    selectEntryFile [toL "x.urdf"] = ([toL "x.urdf"] : List Str).head? :=
  selectEntry_priority_amended.1 [toL "x.urdf"] (by decide)

/-- C5 counterexample: the target of the directive `sub/common.xacro` in a
document at `pkg/robot.xacro` resolves (per the claimed normalization) to
`pkg/sub/common.xacro`, which the files map contains — yet `flattenXacro`
looks the raw path up without any relative resolution against the document
path, misses, and returns the document unchanged instead of splicing. -/
theorem flatten_local_no_relative_resolution :
    claimNormalizeInclude (toL "pkg/robot.xacro") (toL "sub/common.xacro") =
      toL "pkg/sub/common.xacro" ∧
    findFileInMap c5map (toL "pkg/sub/common.xacro") = some (toL "<x/>") ∧
    resolveFindLocal (toL "sub/common.xacro") = toL "sub/common.xacro" ∧
    findFileInMap c5map (resolveFindLocal (toL "sub/common.xacro")) = none ∧
    flattenXacro 2 c5content c5map = some c5content := by
  refine ⟨by decide, by decide, by decide, by decide, by decide⟩

/-- C5 amended: only the remote flattener normalizes include paths by
package-macro substitution followed by relative resolution against the
current document URL, and its recursion uses the included document URL as
the new base (the deep include below only resolves against
`a/sub/mid.xacro`); the local flattener looks the substituted raw path up
in the files map directly, with no base path. -/
theorem fetch_resolves_relative_amended :
    computeTargetUrl (toL "/") (toL "a/root.xacro") (toL "sub/mid.xacro") =
      toL "a/sub/mid.xacro" ∧
    computeTargetUrl (toL "/") (toL "a/root.xacro") (toL "$(find pkg)/f.xacro") =
      toL "/pkg/f.xacro" ∧
    fetchAndFlattenXacro c5fetchO (toL "/") 3 (toL "a/root.xacro") =
      some (.ok (toL "<a><m><d/></m></a>")) := by
  refine ⟨by decide, by decide, by rfl⟩

/-- C6 counterexample: the substitution used by the local flattener
(line 447) replaces `$(find my_pkg)` with the bare name, not with
`package://my_pkg`. -/
theorem substFind_local_bare_name :
    replaceTokens false (toL "$(find my_pkg)/meshes/x.stl") = toL "my_pkg/meshes/x.stl" ∧
    (toL "my_pkg/meshes/x.stl" : Str) ≠ toL "package://my_pkg/meshes/x.stl" := by
  refine ⟨by decide, by decide⟩

/-- C6 amended: the remote flattener substitutes `$(find name)` to
`package://name` (the cited example holds there); the local flattener
substitutes it to the bare package name. -/
theorem substFind_two_styles :
    replaceTokens true (toL "$(find my_pkg)/meshes/x.stl") =
      toL "package://my_pkg/meshes/x.stl" ∧
    replaceTokens false (toL "$(find my_pkg)/meshes/x.stl") =
      toL "my_pkg/meshes/x.stl" := by
  refine ⟨by decide, by decide⟩

/-- C7: when the directory of the current model file ends in `/urdf` and
the asset reference is relative and does not start with `..`, the URL
modifier resolves it against the package root (the first path segment)
rather than the immediate directory. -/
theorem urlModifier_urdf_sibling (baseUrl cfp url : Str)
    (hdir : endsWithS (modelDirOf cfp) (toL "/urdf") = true)
    (hdd : startsWithS url (toL "..") = false)
    (habs : startsWithS url (toL "/") = false)
    (hhttp : startsWithS url (toL "http") = false)
    (hblob : startsWithS url (toL "blob:") = false)
    (hpkg : startsWithS url (toL "package://") = false) :
    urlModifier [] baseUrl cfp url =
      .plain (baseUrl ++ modelPackageRootOf cfp ++ toL "/" ++ url) := by
  simp [urlModifier, hdir, hdd, habs, hhttp, hblob, hpkg]

theorem urlModifier_urdf_sibling_witness :
    urlModifier [] (toL "/") (toL "pkg/urdf/robot.urdf") (toL "meshes/arm.stl") =
      .plain (toL "/pkg/meshes/arm.stl") :=
  (urlModifier_urdf_sibling (toL "/") (toL "pkg/urdf/robot.urdf") (toL "meshes/arm.stl")
    (by decide) (by decide) (by decide) (by decide) (by decide) (by decide)).trans
    (by decide)

/-- C9: the sample-load continuation commits unconditionally — when a
second load (`b.urdf`) starts and completes before the continuation of
the first (`a.urdf`) runs, the stale first result overwrites the content
established by the second, leaving the state with the path of `b.urdf`
and the content fetched for `a.urdf`. -/
theorem sample_load_stale_overwrite :
    (sampleCommit (toL "<robot A/>")
        (sampleCommit (toL "<robot B/>")
          (sampleRequest (toL "b.urdf")
            (sampleRequest (toL "a.urdf") ⟨none, [], false⟩)))).urdfContent =
      some (toL "<robot A/>") ∧
    (sampleCommit (toL "<robot A/>")
        (sampleCommit (toL "<robot B/>")
          (sampleRequest (toL "b.urdf")
            (sampleRequest (toL "a.urdf") ⟨none, [], false⟩)))).currentFilePath =
      toL "b.urdf" ∧
    (toL "<robot A/>" : Str) ≠ toL "<robot B/>" := by
  refine ⟨by decide, by decide, by decide⟩

/-- C10: a file is collected as an entry candidate exactly when its name
ends with the lower-case suffix `.urdf` or `.xacro` (case-sensitively);
`ROBOT.URDF` is not recognized, and a folder containing only it fails with
the no-description error. -/
theorem candidate_extension_case_sensitive :
    (∀ (ps : List Str) (p : Str),
        p ∈ candidateFiles ps ↔
          p ∈ ps ∧ (endsWithS (fileNameOf p) (toL ".urdf") = true ∨
            endsWithS (fileNameOf p) (toL ".xacro") = true)) ∧
    endsWithS (fileNameOf (toL "ROBOT.URDF")) (toL ".urdf") = false ∧
    handleFolderLoad [toL "ROBOT.URDF"] =
      .error (toL "No .urdf or .xacro file found in the selected folder.") := by
  refine ⟨?_, by decide, by rfl⟩
  intro ps p
  simp [candidateFiles, List.mem_filter]

theorem goFetch_ok (recur : Str → Option (Except Str Str)) (baseUrl url : Str) :
    ∀ (ms : List XMatch) (txt : Str) (r : Except Str Str),
      goFetch recur baseUrl url ms txt = some r → ∃ t, r = .ok t := by
  intro ms
  induction ms with
  | nil =>
    intro txt r h
    simp [goFetch] at h
    exact ⟨txt, h.symm⟩
  | cons m rest ih =>
    intro txt r h
    rw [goFetch] at h
    split at h
    · exact absurd h (by simp)
    · exact ih txt r h
    · exact ih _ r h

/-- C8: the only outcome of a completed remote flattening run that is an
error is the root document itself being unfetchable — every failure on an
included document is caught and the assembly continues; and the local
flattener simply leaves a directive whose target is missing in place and
still splices the remaining includes. -/
theorem missing_include_nonfatal :
    (∀ (fetchO : Str → Option Str) (b url : Str) (n : Nat) (r : Except Str Str),
        fetchAndFlattenXacro fetchO b (n + 1) url = some r →
        ((∃ e, r = .error e) ↔ fetchO url = none)) ∧
    flattenXacro 2 c8content c8map =
      some (toL "<xacro:include filename=\"missing.xacro\"/><k/>") := by
  constructor
  · intro fetchO b url n r h
    cases hf : fetchO url with
    | none =>
      rw [fetchAndFlattenXacro, hf] at h
      simp at h
      exact ⟨fun _ => rfl, fun _ => ⟨_, h.symm⟩⟩
    | some c =>
      rw [fetchAndFlattenXacro, hf] at h
      obtain ⟨t, ht⟩ := goFetch_ok _ b url _ c r h
      subst ht
      simp [hf]
  · decide

theorem missing_include_nonfatal_witness :
    (∃ e, (Except.error (toL "Failed to fetch u") : Except Str Str) = .error e) ↔
      (fun (_ : Str) => (none : Option Str)) (toL "u") = none :=
  missing_include_nonfatal.1 (fun _ => none) [] (toL "u") 0
    (Except.error (toL "Failed to fetch u")) (by rfl)

theorem afterWs1_le (s r : Str) (h : afterWs1 s = some r) : r.length ≤ s.length := by
  cases s with
  | nil => cases h
  | cons c cs =>
    rw [afterWs1] at h
    split at h
    · cases h
      exact dropWhile_length_le _ _
    · cases h

theorem afterEq_le (s r : Str) (h : afterEq s = some r) : r.length ≤ s.length := by
  cases s with
  | nil => cases h
  | cons c cs =>
    rw [afterEq] at h
    split at h
    · cases h
      exact Nat.le_succ _
    · cases h

theorem quoteSplit_le (s p r : Str) (h : quoteSplit s = some (p, r)) :
    r.length ≤ s.length := by
  cases s with
  | nil => simp [quoteSplit] at h
  | cons q r7 =>
    by_cases hq : isQuote q
    · cases r7 with
      | nil => simp [quoteSplit, hq] at h
      | cons c2 t2 =>
        by_cases hc2 : isQuote c2
        · simp [quoteSplit, hq, hc2] at h
        · cases hdw : (c2 :: t2).dropWhile (fun c => !(isQuote c)) with
          | nil => simp [quoteSplit, hq, hc2, hdw] at h
          | cons x r8 =>
            simp [quoteSplit, hq, hc2, hdw] at h
            have hle : ((c2 :: t2).dropWhile (fun c => !(isQuote c))).length ≤
                (c2 :: t2).length := dropWhile_length_le _ _
            rw [hdw] at hle
            rw [← h.2]
            simp only [List.length_cons] at hle ⊢
            omega
    · simp [quoteSplit, hq] at h

theorem closeTag_le (s r : Str) (h : closeTag s = some r) : r.length ≤ s.length := by
  rw [closeTag] at h
  have hle : (s.dropWhile isWs).length ≤ s.length := dropWhile_length_le _ _
  split at h
  · rename_i heq
    cases h
    rw [heq] at hle
    simp only [List.length_cons] at hle
    omega
  · rename_i heq
    cases h
    rw [heq] at hle
    simp only [List.length_cons] at hle
    omega
  · cases h

theorem tryMatch_rest_le (sp : Bool) (s p rest : Str)
    (h : tryMatch sp s = some (p, rest)) : rest.length ≤ s.length := by
  rw [tryMatch] at h
  obtain ⟨r1, h1, h⟩ := Option.bind_eq_some.mp h
  obtain ⟨r2, h2, h⟩ := Option.bind_eq_some.mp h
  obtain ⟨r3, h3, h⟩ := Option.bind_eq_some.mp h
  obtain ⟨r5, h5, h⟩ := Option.bind_eq_some.mp h
  obtain ⟨pr, h6, h⟩ := Option.bind_eq_some.mp h
  obtain ⟨rt, h7, h8⟩ := Option.map_eq_some'.mp h
  have e1 := dropLit_length _ _ _ h1
  have e2 := afterWs1_le _ _ h2
  have e3 := dropLit_length _ _ _ h3
  have e5 := afterEq_le _ _ h5
  have e6 := quoteSplit_le _ _ _ h6
  have e7 := closeTag_le _ _ h7
  have e4 : (if sp then r3.dropWhile isWs else r3).length ≤ r3.length := by
    split
    · exact dropWhile_length_le _ _
    · exact Nat.le_refl _
  have e5b : (if sp then r5.dropWhile isWs else r5).length ≤ r5.length := by
    split
    · exact dropWhile_length_le _ _
    · exact Nat.le_refl _
  cases h8
  omega

theorem spansOk_mono_lo (lo lo2 hi : Nat) (ms : List XMatch)
    (h : SpansOk lo hi ms) (hle : lo2 ≤ lo) : SpansOk lo2 hi ms := by
  cases ms with
  | nil => exact Nat.le_trans hle h
  | cons m rest => exact ⟨Nat.le_trans hle h.1, h.2⟩

theorem findMatchesAux_spans (sp : Bool) :
    ∀ (fuel : Nat) (rem : Str) (pos : Nat),
      SpansOk pos (pos + rem.length) (findMatchesAux sp fuel rem pos) := by
  intro fuel
  induction fuel with
  | zero =>
    intro rem pos
    show SpansOk pos (pos + rem.length) []
    exact Nat.le_add_right _ _
  | succ fuel ih =>
    intro rem pos
    cases rem with
    | nil =>
      show SpansOk pos (pos + 0) []
      exact Nat.le_add_right _ _
    | cons c cs =>
      rw [findMatchesAux]
      cases htm : tryMatch sp (c :: cs) with
      | none =>
        have := ih cs (pos + 1)
        have hstep : pos + 1 + cs.length = pos + (c :: cs).length := by
          simp only [List.length_cons]; omega
        rw [hstep] at this
        exact spansOk_mono_lo _ _ _ _ this (Nat.le_succ _)
      | some pr =>
        obtain ⟨p, rest⟩ := pr
        have hle := tryMatch_rest_le sp (c :: cs) p rest htm
        refine ⟨Nat.le_refl _, ?_⟩
        have := ih rest (pos + ((c :: cs).length - rest.length))
        have hstep : pos + ((c :: cs).length - rest.length) + rest.length =
            pos + (c :: cs).length := by omega
        rw [hstep] at this
        exact this

theorem spansOk_snoc (m : XMatch) :
    ∀ (ms : List XMatch) (lo hi : Nat), SpansOk lo hi (ms ++ [m]) →
      SpansOk lo m.idx ms ∧ m.idx + m.len ≤ hi := by
  intro ms
  induction ms with
  | nil =>
    intro lo hi h
    exact ⟨h.1, h.2⟩
  | cons m0 rest ih =>
    intro lo hi h
    obtain ⟨h1, h2⟩ := h
    obtain ⟨ha, hb⟩ := ih _ _ h2
    exact ⟨⟨h1, ha⟩, hb⟩

theorem simulSeg_snoc (content : Str) (m : XMatch) (r : Str) :
    ∀ (pairs : List (XMatch × Str)) (p b : Nat),
      simulSeg content p b (pairs ++ [(m, r)]) =
        simulSeg content p m.idx pairs ++ r ++
          (content.drop (m.idx + m.len)).take (b - (m.idx + m.len)) := by
  intro pairs
  induction pairs with
  | nil =>
    intro p b
    simp [simulSeg, List.append_assoc]
  | cons pr rest ih =>
    intro p b
    obtain ⟨m0, r0⟩ := pr
    simp only [List.cons_append, simulSeg, List.append_eq, ih, List.append_assoc]

theorem simultaneousSubstitute_eq_simulSeg (content : Str) :
    ∀ (pairs : List (XMatch × Str)) (p : Nat),
      simultaneousSubstitute content p pairs = simulSeg content p content.length pairs := by
  intro pairs
  induction pairs with
  | nil =>
    intro p
    show content.drop p = (content.drop p).take (content.length - p)
    rw [List.take_of_length_le]
    simp
  | cons pr rest ih =>
    intro p
    obtain ⟨m, r⟩ := pr
    simp only [simultaneousSubstitute, simulSeg, ih]

theorem goLocal_spec (n : Nat) (map : FilesMap) (content : Str) :
    ∀ (pairs : List (XMatch × Str)) (b : Nat) (tail : Str),
      SpansOk 0 b (pairs.map Prod.fst) → b ≤ content.length →
      (∀ mr ∈ pairs, replacementOf n map mr.1 = some mr.2) →
      goLocal (flattenXacro n) map ((pairs.map Prod.fst).reverse) (content.take b ++ tail) =
        some (simulSeg content 0 b pairs ++ tail) := by
  intro pairs
  induction pairs using List.reverseRecOn with
  | nil =>
    intro b tail hsp hb hrep
    simp only [List.map_nil, List.reverse_nil, goLocal, simulSeg]
    simp
  | append_singleton ps mr ih =>
    obtain ⟨m, r⟩ := mr
    intro b tail hsp hb hrep
    simp only [List.map_append, List.map_cons, List.map_nil] at hsp ⊢
    obtain ⟨hsp1, hmb⟩ := spansOk_snoc m (ps.map Prod.fst) 0 b hsp
    have hm : replacementOf n map m = some r := hrep (m, r) (by simp)
    rw [replacementOf] at hm
    obtain ⟨ft, hft, hfl⟩ := Option.bind_eq_some.mp hm
    have hmidx : m.idx ≤ b := Nat.le_trans (Nat.le_add_right _ _) hmb
    rw [List.reverse_append, List.reverse_singleton, List.singleton_append]
    rw [goLocal]
    simp only [hft, hfl]
    have hsplice : spliceAt (content.take b ++ tail) r m.idx m.len =
        content.take m.idx ++
          (r ++ (content.drop (m.idx + m.len)).take (b - (m.idx + m.len)) ++ tail) := by
      rw [spliceAt, List.take_append_eq_append_take, List.drop_append_eq_append_drop]
      rw [List.length_take, Nat.min_eq_left hb, List.take_take, Nat.min_eq_left hmidx]
      rw [Nat.sub_eq_zero_of_le hmidx, Nat.sub_eq_zero_of_le hmb, List.drop_take]
      simp [List.append_assoc]
    rw [hsplice]
    rw [ih m.idx (r ++ (content.drop (m.idx + m.len)).take (b - (m.idx + m.len)) ++ tail)
      hsp1 (Nat.le_trans hmidx hb) (fun mr hmr => hrep mr (by simp [hmr]))]
    rw [simulSeg_snoc]
    simp [List.append_assoc]

/-- C1: for every document and files map, one pass of `flattenXacro` over
the directives it scanned — processed in reverse document order with
in-place splicing — produces exactly the simultaneous substitution of all
of the directives by their recursively flattened targets; the outcome is
independent of any processing order and of how the spliced fragments
change the text length, since the simultaneous reference has no order. -/
theorem flattenXacro_simultaneous (n : Nat) (content : Str) (map : FilesMap) (rs : List Str)
    (h : List.Forall₂ (fun m r => replacementOf n map m = some r) (findMatches false content) rs) :
    flattenXacro (n + 1) content map =
      some (simultaneousSubstitution content (List.zip (findMatches false content) rs)) := by
  have hlen : (findMatches false content).length = rs.length := h.length_eq
  have hfst : (List.zip (findMatches false content) rs).map Prod.fst =
      findMatches false content := List.map_fst_zip _ _ (Nat.le_of_eq hlen)
  have hsp : SpansOk 0 content.length
      ((List.zip (findMatches false content) rs).map Prod.fst) := by
    rw [hfst]
    have := findMatchesAux_spans false content.length content 0
    simpa using this
  have hrep : ∀ mr ∈ List.zip (findMatches false content) rs,
      replacementOf n map mr.1 = some mr.2 := by
    intro mr hmr
    obtain ⟨a, b⟩ := mr
    exact List.forall₂_zip h hmr
  have hmain := goLocal_spec n map content (List.zip (findMatches false content) rs)
    content.length [] hsp (Nat.le_refl _) hrep
  rw [hfst, List.take_length, List.append_nil, List.append_nil] at hmain
  rw [flattenXacro, hmain]
  rw [simultaneousSubstitution, simultaneousSubstitute_eq_simulSeg]

theorem flattenXacro_simultaneous_witness :
    flattenXacro 2 c1content c1map =
      some (simultaneousSubstitution c1content
        (List.zip (findMatches false c1content) [toL "<pp/>", toL "<qqqq/>"])) := by
  apply flattenXacro_simultaneous 1 c1content c1map [toL "<pp/>", toL "<qqqq/>"]
  rw [show findMatches false c1content =
      [⟨4, 35, toL "p.xacro"⟩, ⟨43, 35, toL "q.xacro"⟩] from by decide]
  exact List.Forall₂.cons (by decide) (List.Forall₂.cons (by decide) List.Forall₂.nil)

end URDFViz
